import Mathlib

/-!
Shallow embedding of the timing-analysis tool (parser.h/parser.cpp,
analyzer.h/analyzer.cpp) and proofs about the claims of the specification.

Modelling conventions:
* C++ `double` is modelled as `ℚ`; the program only compares delays, adds
  them and multiplies by the exact constant 0.5, so no rounding behaviour
  is relevant to any claim.
* `std::shared_ptr<TimingNode>` fields that the parser always fills with
  freshly allocated (hence non-null) nodes are modelled as plain
  `TimingNode` fields; `std::shared_ptr<TimingEdge>` results that can be
  null are modelled as `Option TimingEdge`.
* The node cache `std::unordered_map<std::string, std::shared_ptr<TimingNode>>`
  is modelled as an association list queried with `List.lookup`.
* while-loops are modelled as fueled recursion; every use passes fuel that
  dominates the number of iterations of the corresponding C++ loop.
-/

/-- parser.h `TimingNode`: name, inferred type string, two unused placeholders. -/
structure TimingNode where
  name : String
  type : String
  capacitance : ℚ := 0
  slew : ℚ := 0
deriving DecidableEq, Inhabited

/-- parser.h `TimingEdge`. The C++ field `from` is a Lean keyword, hence `from_`. -/
structure TimingEdge where
  from_ : TimingNode
  to_ : TimingNode
  delay : ℚ
  netDelay : ℚ := 0
  cellDelay : ℚ := 0
deriving DecidableEq, Inhabited

/-- parser.h `TimingPath`. -/
structure TimingPath where
  id : String := ""
  startpoint : String := ""
  endpoint : String := ""
  totalDelay : ℚ := 0
  edges : List TimingEdge := []
deriving DecidableEq, Inhabited

/-- parser.h `TimingPath::getWorstStage`: linear scan starting from
`maxDelay = 0.0`, `worstEdge = nullptr`, updating on strict `>`.
The early return for an empty edge list and the `if (!edge) continue`
null check coincide with the fold over the (non-null) edge list. -/
def TimingPath.getWorstStage (p : TimingPath) : ℚ × Option TimingEdge :=
  p.edges.foldl (fun acc e => if acc.1 < e.delay then (e.delay, some e) else acc) (0, none)

/-- analyzer.h `TimingPathAnalysis`. -/
structure TimingPathAnalysis where
  path : TimingPath
  worstStageDelay : ℚ
  worstStage : Option TimingEdge
  optimizationSuggestion : String
deriving DecidableEq, Inhabited

/-- analyzer.h `TimingPathAnalysis` constructor for a non-null path: computes
the worst stage and seeds the default (period-free) insufficient-data text. -/
def mkTimingPathAnalysis (p : TimingPath) : TimingPathAnalysis :=
  let ws := p.getWorstStage
  { path := p
    worstStageDelay := ws.1
    worstStage := ws.2
    optimizationSuggestion :=
      match ws.2 with
      | none => "Insufficient path data for optimization suggestions"
      | some _ => "" }

/-- Helper for `std::string::find`: does `sub` occur at the start of `s`? -/
def startsWithCh (sub : List Char) : List Char → Bool
  | [] => sub.isEmpty
  | c :: rest =>
    match sub with
    | [] => true
    | d :: ds => d == c && startsWithCh ds rest

/-- Helper for `std::string::find`: does `sub` occur anywhere in `s`? -/
def containsCh (sub : List Char) : List Char → Bool
  | [] => sub.isEmpty
  | c :: rest => startsWithCh sub (c :: rest) || containsCh sub rest

/-- C++ `s.find(sub) != std::string::npos`. -/
def strContainsCpp (s sub : String) : Bool := containsCh sub.data s.data

/-- C++ `s.find(sub) == 0`. -/
def startsWithCpp (sub s : String) : Bool := startsWithCh sub.data s.data

/-- The mis-encoded arrow glyph appearing literally in analyzer.cpp
(bytes C3 A2 E2 80 A0 E2 80 99, i.e. the three code points 0xE2, 0x2020,
0x2019), built from code points to keep the source file ASCII. -/
def mojibakeArrow : String := String.mk [Char.ofNat 0xE2, Char.ofNat 0x2020, Char.ofNat 0x2019]

/-- analyzer.cpp `TimingAnalyzer::suggestFanoutOptimization`; the edge and its
endpoints are non-null by construction, so only the first branch is reachable. -/
def suggestFanoutOptimization (e : TimingEdge) : String :=
  "balance fan-out after " ++ e.from_.name

/-- analyzer.cpp `TimingAnalyzer::suggestCellReplacement`. -/
def suggestCellReplacement (e : TimingEdge) : String :=
  if e.from_.type ≠ "net" then
    "replace " ++ e.from_.name ++ " with " ++
      (if strContainsCpp e.from_.name "INV" then e.from_.name ++ "_HF"
       else if strContainsCpp e.from_.name "BUF" then e.from_.name ++ "_X4"
       else if strContainsCpp e.from_.name "NAND" || strContainsCpp e.from_.name "NOR" then
         e.from_.name ++ "_HS"
       else "a faster variant of " ++ e.from_.name)
  else
    "use faster cell library for critical path cells"

/-- analyzer.cpp `TimingAnalyzer::suggestPipelineInsertion` (non-null branch). -/
def suggestPipelineInsertion (e : TimingEdge) : String :=
  "insert pipeline register between " ++ e.from_.name ++ " " ++ mojibakeArrow ++ " " ++ e.to_.name

/-- analyzer.cpp `TimingAnalyzer::analyzePath`: three-way dispatch on the worst
edge; with no worst stage the period-terminated insufficient-data text wins. -/
def analyzePath (p : TimingPath) : TimingPathAnalysis :=
  let analysis := mkTimingPathAnalysis p
  match analysis.worstStage with
  | none =>
    { analysis with optimizationSuggestion :=
        "Insufficient path data for optimization suggestions." }
  | some worstEdge =>
    if worstEdge.netDelay > worstEdge.cellDelay ∧
        worstEdge.netDelay > (1/2 : ℚ) * analysis.worstStageDelay then
      { analysis with optimizationSuggestion := suggestPipelineInsertion worstEdge }
    else if worstEdge.cellDelay > worstEdge.netDelay ∧
        worstEdge.cellDelay > (1/2 : ℚ) * analysis.worstStageDelay then
      { analysis with optimizationSuggestion := suggestCellReplacement worstEdge }
    else
      { analysis with optimizationSuggestion := suggestFanoutOptimization worstEdge }

/-! ## Parser embedding (parser.cpp)

The two `std::regex` patterns are `regex_search`ed (leftmost match anywhere
in the line).  Both have the rigid shape literal-or-group, `\s+`, `(\S+)`,
`\s+`, `(\S+)`, `\s+`, `([\d\.]+)`: a `(\S+)` group followed by `\s+`
necessarily matches a maximal whitespace-free run, and the final `([\d\.]+)`
matches the maximal digit-or-dot prefix of the following run (it has no
right anchor).  For the stage pattern the first group `(\S+\.\d+)` matches,
within one whitespace-free run, exactly when the run contains a dot at
index at least 1 that is followed by a nonempty all-digit suffix reaching
the end of the run (the trailing `\d+` must be followed by `\s`); every
backtracking choice then consumes the whole run.  The searchers below walk
the match attempt over every start position, leftmost first, exactly as
`regex_search` does. -/

/-- ECMAScript `\s` (the line strings themselves never contain a newline). -/
def wsChar (c : Char) : Bool :=
  c == ' ' || c == '\t' || c == '\n' || c == '\x0b' || c == '\x0c' || c == '\r'

/-- ECMAScript `[\d\.]`. -/
def digitDotCh (c : Char) : Bool := c.isDigit || c == '.'

/-- One `\s+(\S+)` step: at least one whitespace, then a maximal nonempty
whitespace-free run; returns the run and the rest of the input. -/
def wsThenRun (cs : List Char) : Option (List Char × List Char) :=
  if (cs.takeWhile wsChar).isEmpty then none
  else
    let r := cs.dropWhile wsChar
    let t := r.takeWhile (fun c => !wsChar c)
    if t.isEmpty then none else some (t, r.dropWhile (fun c => !wsChar c))

/-- Trailing part `\s+([\d\.]+)` of both patterns. -/
def wsThenNumRun (cs : List Char) : Option (List Char) :=
  if (cs.takeWhile wsChar).isEmpty then none
  else
    let d := (cs.dropWhile wsChar).takeWhile digitDotCh
    if d.isEmpty then none else some d

/-- Attempt of `Path\s+(\S+)\s+(\S+)\s+(\S+)\s+([\d\.]+)` at one position. -/
def matchHeaderAt (cs : List Char) : Option (List Char × List Char × List Char × List Char) :=
  if startsWithCh "Path".data cs then
    match wsThenRun (cs.drop 4) with
    | none => none
    | some (t1, r1) =>
      match wsThenRun r1 with
      | none => none
      | some (t2, r2) =>
        match wsThenRun r2 with
        | none => none
        | some (t3, r3) =>
          match wsThenNumRun r3 with
          | none => none
          | some d => some (t1, t2, t3, d)
  else none

/-- `std::regex_search` for the header pattern: leftmost matching position. -/
def searchHeader : List Char → Option (List Char × List Char × List Char × List Char)
  | [] => none
  | c :: rest =>
    match matchHeaderAt (c :: rest) with
    | some r => some r
    | none => searchHeader rest

/-- Does a whitespace-free run contain, at index at least 1, a dot followed by
a nonempty all-digit suffix reaching the end of the run?  This is exactly when
`(\S+\.\d+)` (followed by `\s`) matches the run; see the section comment. -/
def auxStageShape : List Char → Bool
  | [] => false
  | c :: rest =>
    (c == '.' && !rest.isEmpty && rest.all Char.isDigit) || auxStageShape rest

/-- `(\S+\.\d+)` applied to a maximal whitespace-free run. -/
def hasStageShape : List Char → Bool
  | [] => false
  | _ :: rest => auxStageShape rest

/-- Attempt of `(\S+\.\d+)\s+(\S+)\s+(\S+)\s+([\d\.]+)` at one position. -/
def matchStageAt (cs : List Char) : Option (List Char × List Char × List Char × List Char) :=
  let run := cs.takeWhile (fun c => !wsChar c)
  if hasStageShape run then
    match wsThenRun (cs.dropWhile (fun c => !wsChar c)) with
    | none => none
    | some (t2, r2) =>
      match wsThenRun r2 with
      | none => none
      | some (t3, r3) =>
        match wsThenNumRun r3 with
        | none => none
        | some d => some (run, t2, t3, d)
  else none

/-- `std::regex_search` for the stage pattern: leftmost matching position. -/
def searchStage : List Char → Option (List Char × List Char × List Char × List Char)
  | [] => none
  | c :: rest =>
    match matchStageAt (c :: rest) with
    | some r => some r
    | none => searchStage rest

/-- Digit run to a natural number. -/
def digitsToNat (cs : List Char) : Nat :=
  cs.foldl (fun n c => 10 * n + (c.toNat - 48)) 0

/-- `std::stod` restricted to strings over `[\d\.]` (the only strings the
program feeds it): an integer part, optionally a dot and a fraction part,
anything after a second dot ignored; fails (C++ throws `invalid_argument`)
when no digit occurs before the parse stops, e.g. on `"."` or `".."`. -/
def stodQ (cs : List Char) : Option ℚ :=
  let ip := cs.takeWhile Char.isDigit
  let rest := cs.dropWhile Char.isDigit
  let fp := match rest with
    | c :: r => if c == '.' then r.takeWhile Char.isDigit else []
    | [] => []
  if ip.isEmpty && fp.isEmpty then none
  else some ((digitsToNat ip : ℚ) + (digitsToNat fp : ℚ) / (10 : ℚ) ^ fp.length)

/-- parser.cpp `TimingParser::parsePathHeader`.  Group 1 is the id, group 2
the endpoint, group 3 the startpoint; the function returns the tuple
(id, startpoint, endpoint, delay), so groups 2 and 3 swap places.  `none`
models the thrown `runtime_error` (no regex match) or `stod` failure. -/
def parsePathHeader (line : String) : Option (String × String × String × ℚ) :=
  match searchHeader line.data with
  | none => none
  | some (idCs, m2, m3, dCs) =>
    match stodQ dCs with
    | none => none
    | some d => some (String.mk idCs, String.mk m3, String.mk m2, d)

/-- parser.cpp lines 136-144: type inference for a freshly created `from` node. -/
def inferFromType (name : String) : String :=
  if strContainsCpp name "NET" then "net"
  else if strContainsCpp name "FF" || strContainsCpp name "FLOP" then "flop"
  else if strContainsCpp name "PI" then "primary_input"
  else "unknown"

/-- parser.cpp lines 155-171: type inference for a freshly created `to` node. -/
def inferToType (name : String) : String :=
  if strContainsCpp name "NET" then "net"
  else if strContainsCpp name "INV" then "inverter"
  else if strContainsCpp name "BUF" then "buffer"
  else if strContainsCpp name "NAND" then "nand"
  else if strContainsCpp name "NOR" then "nor"
  else if strContainsCpp name "FF" || strContainsCpp name "FLOP" then "flop"
  else if strContainsCpp name "PO" then "primary_output"
  else "unknown"

/-- The node cache `nodeCache` of `TimingParser`, as an association list. -/
abbrev NodeCache := List (String × TimingNode)

/-- parser.cpp lines 131-148: look up the source name in the cache, else
create the node with the inferred type and store it. -/
def resolveFrom (cache : NodeCache) (name : String) : TimingNode × NodeCache :=
  match List.lookup name cache with
  | some n => (n, cache)
  | none =>
    let n : TimingNode := { name := name, type := inferFromType name }
    (n, (name, n) :: cache)

/-- parser.cpp lines 150-175: the same for the destination name. -/
def resolveTo (cache : NodeCache) (name : String) : TimingNode × NodeCache :=
  match List.lookup name cache with
  | some n => (n, cache)
  | none =>
    let n : TimingNode := { name := name, type := inferToType name }
    (n, (name, n) :: cache)

/-- parser.cpp `TimingParser::parsePathStage`.  `none` covers both the
regex-mismatch `nullptr` return and a `stod` exception (caught by the
caller); in both cases the cache is untouched because `stod` runs before
any cache access.  The source is resolved before the destination, and the
delay is booked as net delay exactly when the source node type is net. -/
def parsePathStage (cache : NodeCache) (line : String) : Option TimingEdge × NodeCache :=
  match searchStage line.data with
  | none => (none, cache)
  | some (_, toCs, fromCs, dCs) =>
    match stodQ dCs with
    | none => (none, cache)
    | some delay =>
      let fr := resolveFrom cache (String.mk fromCs)
      let tr := resolveTo fr.2 (String.mk toCs)
      if fr.1.type = "net" then
        (some { from_ := fr.1, to_ := tr.1, delay := delay, netDelay := delay, cellDelay := 0 }, tr.2)
      else
        (some { from_ := fr.1, to_ := tr.1, delay := delay, netDelay := 0, cellDelay := delay }, tr.2)

/-- parser.cpp line 72: a line that terminates the stage scan of a block. -/
def isTermLine (line : String) : Bool :=
  line == "" || startsWithCpp "Path " line || strContainsCpp line "End of"

/-- parser.cpp lines 68-90, the stage-scan while loop of `parsePath`:
stops at the first terminator line (which stays unconsumed) or at the end
of the input, feeds every other line containing `id ++ "."` to
`parsePathStage`, and keeps the edge when one is produced.  Fuel dominates
`lines.length - lineIndex`, the maximal number of iterations. -/
def parsePathLoop (id : String) (lines : List String) :
    Nat → Nat → List TimingEdge → NodeCache → List TimingEdge × Nat × NodeCache
  | 0, lineIndex, edges, cache => (edges, lineIndex, cache)
  | fuel + 1, lineIndex, edges, cache =>
    if lineIndex < lines.length then
      let line := lines.getD lineIndex ""
      if isTermLine line then (edges, lineIndex, cache)
      else if strContainsCpp line (id ++ ".") then
        match parsePathStage cache line with
        | (some e, cache2) => parsePathLoop id lines fuel (lineIndex + 1) (edges ++ [e]) cache2
        | (none, cache2) => parsePathLoop id lines fuel (lineIndex + 1) edges cache2
      else parsePathLoop id lines fuel (lineIndex + 1) edges cache
    else (edges, lineIndex, cache)

/-- parser.cpp `TimingParser::parsePath`: parse the header at `startLine`
(`none` models the escaping exception) and scan the stage block starting at
the following line, returning the built path and the index of the first
unconsumed line. -/
def parsePath (lines : List String) (startLine : Nat) (cache : NodeCache) :
    Option (TimingPath × Nat × NodeCache) :=
  match parsePathHeader (lines.getD startLine "") with
  | none => none
  | some (id, startp, endp, delay) =>
    let r := parsePathLoop id lines lines.length (startLine + 1) [] cache
    some ({ id := id, startpoint := startp, endpoint := endp,
            totalDelay := delay, edges := r.1 }, r.2.1, r.2.2)

/-- parser.cpp lines 30-47, the scan loop of `parseFile`: a line starting
with `"Path "` is dispatched to `parsePath`; on success scanning resumes at
the returned index, on failure (warning printed) and on every other line it
advances by one.  Fuel dominates the iteration count since the index grows
strictly. -/
def parseReportLoop (lines : List String) :
    Nat → Nat → NodeCache → List TimingPath → List TimingPath × NodeCache
  | 0, _, cache, acc => (acc, cache)
  | fuel + 1, lineIndex, cache, acc =>
    if lineIndex < lines.length then
      if startsWithCpp "Path " (lines.getD lineIndex "") then
        match parsePath lines lineIndex cache with
        | some (path, next, cache2) => parseReportLoop lines fuel next cache2 (acc ++ [path])
        | none => parseReportLoop lines fuel (lineIndex + 1) cache acc
      else parseReportLoop lines fuel (lineIndex + 1) cache acc
    else (acc, cache)

/-- parser.cpp `TimingParser::parseFile` after the excluded file I/O handed
over the list of lines (specification section 6 calls this `parseReport`). -/
def parseReport (lines : List String) : List TimingPath :=
  (parseReportLoop lines (lines.length + 1) 0 [] []).1

/-- Straight-line restatement of the stage-scan body over an explicit list
of block lines, used to state what `parsePathLoop` does to the slice it
consumes. -/
def stageFold (id : String) (edges : List TimingEdge) (cache : NodeCache)
    (ls : List String) : List TimingEdge × NodeCache :=
  ls.foldl (fun ec line =>
    if strContainsCpp line (id ++ ".") then
      match parsePathStage ec.2 line with
      | (some e, c2) => (ec.1 ++ [e], c2)
      | (none, c2) => (ec.1, c2)
    else ec) (edges, cache)

/-- The header tuple a parsed path carries, for stating order/count claims. -/
def pathSummary (p : TimingPath) : String × String × String × ℚ :=
  (p.id, p.startpoint, p.endpoint, p.totalDelay)

/-- The well-formed `"Path "` header lines of a report, in order: those the
report scanner both recognizes as headers and parses successfully. -/
def wellFormedHeaderData (lines : List String) : List (String × String × String × ℚ) :=
  lines.filterMap fun l => if startsWithCpp "Path " l then parsePathHeader l else none

/-! ## analyzer.cpp `findCriticalPaths`

The ranking sorts with `std::sort(pathPtrs.begin(), pathPtrs.end(), comp)`
where `comp(a, b) = a->totalDelay > b->totalDelay`.  `std::sort` is
libstdc++ introsort: `__introsort_loop` (median-of-three quicksort to a
threshold of 16, depth limit `2 * __lg(n)`, heapsort fallback) followed by
`__final_insertion_sort`.  The functions below transcribe that algorithm
over `List` with absolute indices; `List.getD _ default` and `List.set`
model iterator reads and writes (both are no-ops out of range, which real
executions never hit: the scans of `__unguarded_partition` stay in range
because the pivot is a median of three).  While loops carry fuel that
dominates their iteration count in every real execution. -/

/-- `std::iter_swap` on positions `i` and `j`. -/
def lswap {α : Type} [Inhabited α] (l : List α) (i j : Nat) : List α :=
  (l.set i (l.getD j default)).set j (l.getD i default)

/-- `while (comp(first, pivot)) ++first` of `__unguarded_partition`. -/
def scanUp {α : Type} [Inhabited α] (gt : α → α → Bool) (l : List α) (piv : α) :
    Nat → Nat → Nat
  | 0, i => i
  | fuel + 1, i => if gt (l.getD i default) piv then scanUp gt l piv fuel (i + 1) else i

/-- `while (comp(pivot, last)) --last` of `__unguarded_partition`. -/
def scanDown {α : Type} [Inhabited α] (gt : α → α → Bool) (l : List α) (piv : α) :
    Nat → Nat → Nat
  | 0, i => i
  | fuel + 1, i => if gt piv (l.getD i default) then scanDown gt l piv fuel (i - 1) else i

/-- `std::__unguarded_partition(first, last, pivot)`: advance from the left
past elements before the pivot, decrement and retreat from the right past
elements after it, stop when the cursors cross, else swap and continue. -/
def partitionLoop {α : Type} [Inhabited α] (gt : α → α → Bool) (piv : α) :
    Nat → List α → Nat → Nat → List α × Nat
  | 0, l, first, _ => (l, first)
  | fuel + 1, l, first, last =>
    let f := scanUp gt l piv (l.length + 1) first
    let lst := scanDown gt l piv (l.length + 1) (last - 1)
    if f < lst then partitionLoop gt piv fuel (lswap l f lst) (f + 1) lst
    else (l, f)

/-- `std::__move_median_to_first(result, a, b, c)`. -/
def moveMedianToFirst {α : Type} [Inhabited α] (gt : α → α → Bool)
    (l : List α) (result a b c : Nat) : List α :=
  if gt (l.getD a default) (l.getD b default) then
    if gt (l.getD b default) (l.getD c default) then lswap l result b
    else if gt (l.getD a default) (l.getD c default) then lswap l result c
    else lswap l result a
  else if gt (l.getD a default) (l.getD c default) then lswap l result a
  else if gt (l.getD b default) (l.getD c default) then lswap l result c
  else lswap l result b

/-- `std::__unguarded_partition_pivot(first, last)`: move the median of
positions `first + 1`, `first + (last - first) / 2`, `last - 1` to `first`
and partition `[first + 1, last)` against it. -/
def unguardedPartitionPivot {α : Type} [Inhabited α] (gt : α → α → Bool)
    (l : List α) (first last : Nat) : List α × Nat :=
  let mid := first + (last - first) / 2
  let l1 := moveMedianToFirst gt l first (first + 1) mid (last - 1)
  partitionLoop gt (l1.getD first default) (l1.length + 1) l1 (first + 1) last

/-- `std::__push_heap(first, holeIndex, topIndex, value)`.  Fuel dominates
`holeIndex`, which strictly decreases. -/
def pushHeap {α : Type} [Inhabited α] (gt : α → α → Bool) (first : Nat) :
    Nat → Nat → Nat → α → List α → List α
  | 0, holeIndex, _, value, l => l.set (first + holeIndex) value
  | fuel + 1, holeIndex, topIndex, value, l =>
    let parent := (holeIndex - 1) / 2
    if holeIndex > topIndex && gt (l.getD (first + parent) default) value then
      pushHeap gt first fuel parent topIndex value
        (l.set (first + holeIndex) (l.getD (first + parent) default))
    else l.set (first + holeIndex) value

/-- The sift-down while loop of `std::__adjust_heap`; returns the list and
the final `holeIndex` and `secondChild`. -/
def adjustLoop {α : Type} [Inhabited α] (gt : α → α → Bool) (first len : Nat) :
    Nat → Nat → Nat → List α → List α × Nat × Nat
  | 0, holeIndex, secondChild, l => (l, holeIndex, secondChild)
  | fuel + 1, holeIndex, secondChild, l =>
    if secondChild < (len - 1) / 2 then
      let sc := 2 * (secondChild + 1)
      let sc2 :=
        if gt (l.getD (first + sc) default) (l.getD (first + sc - 1) default) then sc - 1 else sc
      adjustLoop gt first len fuel sc2 sc2 (l.set (first + holeIndex) (l.getD (first + sc2) default))
    else (l, holeIndex, secondChild)

/-- `std::__adjust_heap(first, holeIndex, len, value)`. -/
def adjustHeap {α : Type} [Inhabited α] (gt : α → α → Bool)
    (first len holeIndex : Nat) (l : List α) (value : α) : List α :=
  let r := adjustLoop gt first len len holeIndex holeIndex l
  if len % 2 == 0 && r.2.2 == (len - 2) / 2 then
    let sc2 := 2 * (r.2.2 + 1)
    pushHeap gt first sc2 (sc2 - 1) holeIndex value
      (r.1.set (first + r.2.1) (r.1.getD (first + sc2 - 1) default))
  else pushHeap gt first (r.2.1 + 1) r.2.1 holeIndex value r.1

/-- One `--last; std::__pop_heap(first, last, last)` step of `__sort_heap`,
with `last` already decremented. -/
def popHeapStep {α : Type} [Inhabited α] (gt : α → α → Bool)
    (first last : Nat) (l : List α) : List α :=
  let value := l.getD last default
  adjustHeap gt first (last - first) 0 (l.set last (l.getD first default)) value

/-- The while loop of `std::__sort_heap(first, last)`. -/
def sortHeapLoop {α : Type} [Inhabited α] (gt : α → α → Bool) (first : Nat) :
    Nat → Nat → List α → List α
  | 0, _, l => l
  | fuel + 1, last, l =>
    if last - first > 1 then sortHeapLoop gt first fuel (last - 1) (popHeapStep gt first (last - 1) l)
    else l

/-- The while loop of `std::__make_heap`, sifting parents down from
`(len - 2) / 2` to `0`. -/
def makeHeapLoop {α : Type} [Inhabited α] (gt : α → α → Bool) (first len : Nat) :
    Nat → Nat → List α → List α
  | 0, _, l => l
  | fuel + 1, parent, l =>
    let l2 := adjustHeap gt first len parent l (l.getD (first + parent) default)
    if parent == 0 then l2 else makeHeapLoop gt first len fuel (parent - 1) l2

/-- `std::__make_heap(first, last)`. -/
def makeHeap {α : Type} [Inhabited α] (gt : α → α → Bool)
    (first last : Nat) (l : List α) : List α :=
  if last - first < 2 then l
  else makeHeapLoop gt first (last - first) (last - first) ((last - first - 2) / 2) l

/-- `std::__partial_sort(first, last, last)` as called by the depth-limit
branch of `__introsort_loop`: `__heap_select(first, last, last)` (whose
trailing loop is empty because middle = last, leaving `__make_heap`)
followed by `__sort_heap(first, last)`. -/
def heapSortRange {α : Type} [Inhabited α] (gt : α → α → Bool)
    (first last : Nat) (l : List α) : List α :=
  sortHeapLoop gt first (last - first + 1) last (makeHeap gt first last l)

/-- `std::__introsort_loop(first, last, depth_limit)`: while the range is
longer than the threshold 16, heapsort it if the depth limit is exhausted,
else partition, recurse on the right part with the decremented limit and
continue the loop on the left part (also with the decremented limit).
Fuel dominates the call-nesting depth of every real execution. -/
def introsortLoop {α : Type} [Inhabited α] (gt : α → α → Bool) :
    Nat → List α → Nat → Nat → Nat → List α
  | 0, l, _, _, _ => l
  | fuel + 1, l, first, last, depth =>
    if last - first > 16 then
      match depth with
      | 0 => heapSortRange gt first last l
      | depth2 + 1 =>
        let pc := unguardedPartitionPivot gt l first last
        introsortLoop gt fuel (introsortLoop gt fuel pc.1 pc.2 last depth2) first pc.2 depth2
    else l

/-- `std::__unguarded_linear_insert`, as insertion into the sorted prefix:
the value moves left past every element strictly after it (w.r.t. comp),
so it lands after any element equal to it. -/
def linearInsert {α : Type} (gt : α → α → Bool) (x : α) : List α → List α
  | [] => [x]
  | y :: ys => if gt x y then x :: y :: ys else y :: linearInsert gt x ys

/-- `std::__final_insertion_sort(first, last)`: `__insertion_sort` of the
first 16 elements, then `__unguarded_linear_insert` of each remaining
element.  Both steps insert the next element into the already sorted
prefix at the position `linearInsert` computes (the guarded move-to-front
special case of `__insertion_sort` produces that same position), so the
combination is insertion sort of the whole range. -/
def insertionSortCpp {α : Type} (gt : α → α → Bool) (l : List α) : List α :=
  l.foldl (fun acc x => linearInsert gt x acc) []

/-- libstdc++ `std::sort(first, last, comp)`: nothing on an empty range,
else `__introsort_loop` with depth limit `2 * __lg(n)` followed by
`__final_insertion_sort`. -/
def sortCpp {α : Type} [Inhabited α] (gt : α → α → Bool) (l : List α) : List α :=
  if l.isEmpty then l
  else insertionSortCpp gt
    (introsortLoop gt (l.length + 2 * Nat.log2 l.length + 4) l 0 l.length (2 * Nat.log2 l.length))

/-- The comparator `a->totalDelay > b->totalDelay` of `findCriticalPaths`. -/
def pathGtCpp (a b : TimingPath) : Bool := decide (a.totalDelay > b.totalDelay)

/-- analyzer.cpp `TimingAnalyzer::findCriticalPaths`: copy the paths, sort
them with `std::sort` by descending total delay, and analyze the first
`min(topK, size)` of them (no iteration when `topK` is not positive). -/
def findCriticalPaths (paths : List TimingPath) (topK : ℤ) : List TimingPathAnalysis :=
  let sorted := sortCpp pathGtCpp paths
  (sorted.take (min topK (sorted.length : ℤ)).toNat).map analyzePath

/-- Modelled from the spec: a stable insertion step for the descending
order by `totalDelay` (a path is inserted after every already placed path
whose delay is at least as large, preserving input order on ties). -/
def stableInsertByDelay (x : TimingPath) : List TimingPath → List TimingPath
  | [] => [x]
  | y :: ys => if x.totalDelay > y.totalDelay then x :: y :: ys else y :: stableInsertByDelay x ys

/-- Modelled from the spec: the unique reordering that is sorted by
strictly descending `totalDelay` with ties kept in original input order
(the stable descending sort the specification describes). -/
def stableSortByDelaySpec (paths : List TimingPath) : List TimingPath :=
  paths.foldl (fun acc x => stableInsertByDelay x acc) []

/-- Modelled from the spec: `findCriticalPaths` as the specification
describes it, with the stable descending sort. -/
def findCriticalPathsSpec (paths : List TimingPath) (topK : ℤ) : List TimingPathAnalysis :=
  ((stableSortByDelaySpec paths).take (min topK (paths.length : ℤ)).toNat).map analyzePath

/-- Seventeen paths with equal `totalDelay` (the threshold of
`__introsort_loop` is 16, so `std::sort` runs one partitioning pass here). -/
def pathsTie17 : List TimingPath :=
  (List.range 17).map fun i => { id := Nat.repr i, totalDelay := 1 }

/-- Modelled from the spec: the single category-inference check list of
specification section 4.1, evaluated in the listed order with the first
match winning; the PI check applies only to edge sources and the PO check
only to edge destinations. -/
def claimInferCategory (forSource : Bool) (name : String) : String :=
  if strContainsCpp name "NET" then "net"
  else if strContainsCpp name "FF" || strContainsCpp name "FLOP" then "flop"
  else if forSource && strContainsCpp name "PI" then "primary_input"
  else if strContainsCpp name "INV" then "inverter"
  else if strContainsCpp name "BUF" then "buffer"
  else if strContainsCpp name "NAND" then "nand"
  else if strContainsCpp name "NOR" then "nor"
  else if !forSource && strContainsCpp name "PO" then "primary_output"
  else "unknown"

/-- A path with one edge whose delay is zero: its edge list is non-empty,
yet the scan of `getWorstStage` never beats the initial maximum `0.0`. -/
def zeroEdgePath : TimingPath :=
  { id := "Z", edges :=
      [{ from_ := { name := "A", type := "unknown" },
         to_ := { name := "B", type := "unknown" }, delay := 0 }] }

/-- Scenario C of the spec: the worst edge has `cellDelay = 1.5`,
`netDelay = 0.5` and source name `"INV1"` (stage delay 2 makes it the
worst stage). -/
def scenarioCPath : TimingPath :=
  { id := "C", edges :=
      [{ from_ := { name := "INV1", type := "inverter" },
         to_ := { name := "NET2", type := "net" },
         delay := 2, netDelay := 1/2, cellDelay := 3/2 }] }

/-! ## Theorems -/

/-- The seed of a `foldl max` is a lower bound of the result. -/
theorem le_foldl_max : ∀ (l : List ℚ) (d : ℚ), d ≤ l.foldl max d
  | [], _ => le_refl _
  | x :: l, d => le_trans (le_max_left d x) (le_foldl_max l (max d x))

/-- Closed form of the scan of `getWorstStage` from an arbitrary
accumulator: the running maximum becomes `foldl max`, and the stored edge
is the first edge attaining the final maximum as soon as that maximum
exceeds the seed, the seeded edge otherwise. -/
theorem worstFoldSpec (l : List TimingEdge) :
    ∀ (d : ℚ) (w : Option TimingEdge),
      l.foldl (fun acc e => if acc.1 < e.delay then (e.delay, some e) else acc) (d, w) =
        ((l.map fun e => e.delay).foldl max d,
          if d < (l.map fun e => e.delay).foldl max d then
            l.find? fun e => decide (e.delay = (l.map fun e => e.delay).foldl max d)
          else w) := by
  induction l with
  | nil => intro d w; simp
  | cons x l ih =>
    intro d w
    simp only [List.foldl_cons, List.map_cons]
    by_cases h : d < x.delay
    · simp only [if_pos h]
      rw [ih]
      simp only [max_eq_right (le_of_lt h)]
      have hle : x.delay ≤ (l.map fun e => e.delay).foldl max x.delay := le_foldl_max _ _
      by_cases hx : x.delay < (l.map fun e => e.delay).foldl max x.delay
      · rw [if_pos hx, if_pos (lt_trans h hx),
          List.find?_cons_of_neg _ (by simp [ne_of_lt hx])]
      · have hMx : (l.map fun e => e.delay).foldl max x.delay = x.delay :=
          le_antisymm (not_lt.mp hx) hle
        rw [if_neg hx, if_pos (by rw [hMx]; exact h),
          List.find?_cons_of_pos _ (by simp [hMx])]
    · simp only [if_neg h]
      rw [ih]
      simp only [max_eq_left (not_lt.mp h)]
      by_cases hd : d < (l.map fun e => e.delay).foldl max d
      · rw [if_pos hd, if_pos hd, List.find?_cons_of_neg _
          (by simp; exact ne_of_lt (lt_of_le_of_lt (not_lt.mp h) hd))]
      · rw [if_neg hd, if_neg hd]

/-- C3.  For every path, `getWorstStage` agrees with a linear scan of the
edge list: the returned `worstStageDelay` is the maximum of the edge
delays and the initial `0.0`, and the returned edge is the first edge (in
path order) attaining that maximum whenever the maximum beats the initial
`0.0` of the strict `>` scan, and no edge otherwise — in particular a path
with no edges yields `(0.0, none)` since its fold is empty. -/
theorem getWorstStage_linear_scan (p : TimingPath) :
    p.getWorstStage =
      ((p.edges.map fun e => e.delay).foldl max 0,
        if 0 < (p.edges.map fun e => e.delay).foldl max 0 then
          p.edges.find? fun e => decide (e.delay = (p.edges.map fun e => e.delay).foldl max 0)
        else none) :=
  worstFoldSpec p.edges 0 none

/-- A fold of `max` over nonpositive values from seed `0` stays `0`. -/
theorem foldl_max_zero : ∀ l : List ℚ, (∀ x ∈ l, x = 0) → l.foldl max 0 = 0 := by
  intro l h
  induction l with
  | nil => rfl
  | cons x l ih =>
    have hx : x = 0 := h x (by simp)
    simp only [List.foldl_cons, hx, max_self]
    exact ih fun y hy => h y (by simp [hy])

/-- C10.  A path whose edge list is non-empty but all of whose edges have
delay `0.0` gets `worstStageDelay 0.0` and no worst edge from
`getWorstStage` (the scan compares with strict `>` against the initial
maximum `0.0`), and `analyzePath` therefore returns the fixed
insufficient-data suggestion, exactly the analysis it returns for the same
path with no edges at all. -/
theorem analyzePath_all_zero_delays (p : TimingPath) (_hne : p.edges ≠ [])
    (hz : ∀ e ∈ p.edges, e.delay = 0) :
    p.getWorstStage = (0, none) ∧
    analyzePath p =
      { path := p, worstStageDelay := 0, worstStage := none,
        optimizationSuggestion := "Insufficient path data for optimization suggestions." } ∧
    (analyzePath p).optimizationSuggestion =
      (analyzePath { p with edges := [] }).optimizationSuggestion := by
  have hmax : (p.edges.map fun e => e.delay).foldl max 0 = 0 :=
    foldl_max_zero _ (by intro x hx; obtain ⟨e, he, rfl⟩ := List.mem_map.mp hx; exact hz e he)
  have hws : p.getWorstStage = (0, none) := by
    rw [getWorstStage_linear_scan, hmax]; simp
  refine ⟨hws, ?_, ?_⟩
  · simp [analyzePath, mkTimingPathAnalysis, hws]
  · have h2 : ({ p with edges := [] } : TimingPath).getWorstStage = (0, none) := rfl
    simp [analyzePath, mkTimingPathAnalysis, hws, h2]

/-- C10 witness: the concrete one-edge zero-delay path. -/
theorem analyzePath_all_zero_delays_witness :
    zeroEdgePath.getWorstStage = (0, none) ∧
    analyzePath zeroEdgePath =
      { path := zeroEdgePath, worstStageDelay := 0, worstStage := none,
        optimizationSuggestion := "Insufficient path data for optimization suggestions." } ∧
    (analyzePath zeroEdgePath).optimizationSuggestion =
      (analyzePath { zeroEdgePath with edges := [] }).optimizationSuggestion :=
  analyzePath_all_zero_delays zeroEdgePath (by decide) (by decide)


/-- C2 (amended: the classification applies to every path that has a worst
stage, i.e. at least one edge of positive delay; a non-empty path whose
edges all have delay `0.0` instead takes the insufficient-data branch, see
the counterexample).  When the worst edge exists, `analyzePath` suggests
pipeline insertion naming source and destination if `netDelay > cellDelay`
and `netDelay > 0.5 * worstStageDelay`; else cell replacement if
`cellDelay > netDelay` and `cellDelay > 0.5 * worstStageDelay`, appending
`_HF` for a source name containing INV, `_X4` for BUF, `_HS` for NAND or
NOR, a generic faster-variant text otherwise, and a generic faster-library
text when the source node category is net; and fan-out balancing naming
the source node in all remaining cases. -/
theorem analyzePath_worst_classified (p : TimingPath) (w : TimingEdge)
    (hw : p.getWorstStage.2 = some w) :
    (analyzePath p).worstStage = some w ∧
    (analyzePath p).worstStageDelay = p.getWorstStage.1 ∧
    (analyzePath p).optimizationSuggestion =
      (if w.netDelay > w.cellDelay ∧ w.netDelay > (1/2 : ℚ) * p.getWorstStage.1 then
        "insert pipeline register between " ++ w.from_.name ++ " " ++ mojibakeArrow ++ " "
          ++ w.to_.name
      else if w.cellDelay > w.netDelay ∧ w.cellDelay > (1/2 : ℚ) * p.getWorstStage.1 then
        (if w.from_.type ≠ "net" then
          "replace " ++ w.from_.name ++ " with " ++
            (if strContainsCpp w.from_.name "INV" then w.from_.name ++ "_HF"
             else if strContainsCpp w.from_.name "BUF" then w.from_.name ++ "_X4"
             else if strContainsCpp w.from_.name "NAND" || strContainsCpp w.from_.name "NOR" then
               w.from_.name ++ "_HS"
             else "a faster variant of " ++ w.from_.name)
        else "use faster cell library for critical path cells")
      else "balance fan-out after " ++ w.from_.name) := by
  simp only [analyzePath, mkTimingPathAnalysis, hw]
  by_cases h1 : w.netDelay > w.cellDelay ∧ w.netDelay > (1/2 : ℚ) * p.getWorstStage.1
  · rw [if_pos h1, if_pos h1]
    exact ⟨rfl, rfl, rfl⟩
  · rw [if_neg h1, if_neg h1]
    by_cases h2 : w.cellDelay > w.netDelay ∧ w.cellDelay > (1/2 : ℚ) * p.getWorstStage.1
    · rw [if_pos h2, if_pos h2]
      exact ⟨rfl, rfl, rfl⟩
    · rw [if_neg h2, if_neg h2]
      exact ⟨rfl, rfl, rfl⟩

/-- C2 witness (Scenario C of the spec): the worst edge of `scenarioCPath`
has `cellDelay = 1.5 > netDelay = 0.5`, `cellDelay > 0.5 * 2`, and source
name `INV1`, so the suggestion is the cell replacement `INV1_HF`. -/
theorem analyzePath_worst_classified_witness :
    (analyzePath scenarioCPath).worstStage = some (scenarioCPath.edges.getD 0 default) ∧
    (analyzePath scenarioCPath).optimizationSuggestion = "replace INV1 with INV1_HF" := by
  have h := analyzePath_worst_classified scenarioCPath
    (scenarioCPath.edges.getD 0 default) (by with_unfolding_all decide)
  refine ⟨h.1, ?_⟩
  rw [h.2.2]
  with_unfolding_all decide

/-- C2 counterexample: `zeroEdgePath` has one edge (so the claim as stated
applies to it) whose `netDelay` and `cellDelay` are both `0`, hence
neither dominance condition holds and the claim predicts the fan-out
text naming the source node `A`; the code instead finds no worst stage
(all delays are `0.0`) and emits the insufficient-data text. -/
theorem analyzePath_zero_delay_not_fanout :
    zeroEdgePath.edges.length = 1 ∧
    (zeroEdgePath.edges.getD 0 default).netDelay = 0 ∧
    (zeroEdgePath.edges.getD 0 default).cellDelay = 0 ∧
    (analyzePath zeroEdgePath).optimizationSuggestion =
      "Insufficient path data for optimization suggestions." ∧
    (analyzePath zeroEdgePath).optimizationSuggestion ≠
      "balance fan-out after " ++ (zeroEdgePath.edges.getD 0 default).from_.name := by
  with_unfolding_all decide

/-- C4.  Every edge `parsePathStage` produces satisfies
`delay = netDelay + cellDelay`, and the decomposition is decided by the
source node category alone: a net source books the whole stage delay as
net delay (cell delay zero), any other source books it all as cell delay
(net delay zero).  Both endpoint nodes are plain fields of the produced
edge, hence non-null by construction. -/
theorem parsePathStage_delay_decomposition (cache : NodeCache) (line : String)
    (e : TimingEdge) (he : (parsePathStage cache line).1 = some e) :
    e.delay = e.netDelay + e.cellDelay ∧
    (e.from_.type = "net" → e.netDelay = e.delay ∧ e.cellDelay = 0) ∧
    (e.from_.type ≠ "net" → e.cellDelay = e.delay ∧ e.netDelay = 0) := by
  unfold parsePathStage at he
  cases h1 : searchStage line.data with
  | none => simp only [h1] at he; simp at he
  | some r =>
    obtain ⟨g1, toCs, fromCs, dCs⟩ := r
    simp only [h1] at he
    cases h2 : stodQ dCs with
    | none => simp only [h2] at he; simp at he
    | some delay =>
      simp only [h2] at he
      by_cases h3 : (resolveFrom cache (String.mk fromCs)).1.type = "net"
      · rw [if_pos h3] at he
        simp only [Option.some.injEq] at he
        subst he
        refine ⟨by simp, fun _ => ⟨rfl, rfl⟩, fun hne => absurd h3 ?_⟩
        simpa using hne
      · rw [if_neg h3] at he
        simp only [Option.some.injEq] at he
        subst he
        exact ⟨by simp, fun hn => absurd hn h3, fun _ => ⟨rfl, rfl⟩⟩

set_option maxRecDepth 4000 in
/-- C4 witness: the Scenario A stage line `P1.1 NET1 PI 0.123` parsed in an
empty cache yields the edge from `PI` (primary input, so all cell delay)
to `NET1` with delay `0.123`. -/
theorem parsePathStage_delay_decomposition_witness :
    (let e : TimingEdge :=
      { from_ := { name := "PI", type := "primary_input" },
        to_ := { name := "NET1", type := "net" },
        delay := 123/1000, netDelay := 0, cellDelay := 123/1000 }
     e.delay = e.netDelay + e.cellDelay ∧
     (e.from_.type = "net" → e.netDelay = e.delay ∧ e.cellDelay = 0) ∧
     (e.from_.type ≠ "net" → e.cellDelay = e.delay ∧ e.netDelay = 0)) :=
  parsePathStage_delay_decomposition [] "P1.1 NET1 PI 0.123"
    { from_ := { name := "PI", type := "primary_input" },
      to_ := { name := "NET1", type := "net" },
      delay := 123/1000, netDelay := 0, cellDelay := 123/1000 } (by with_unfolding_all decide)

/-- C6 (amended: the parser uses two different ordered check lists, not one.
For a source node: NET, then FF or FLOP, then PI, otherwise unknown — INV,
BUF, NAND, NOR are never assigned to sources.  For a destination node:
NET, then INV, BUF, NAND, NOR, then FF or FLOP, then PO, otherwise
unknown — so the INV/BUF/NAND/NOR cues are checked before FF/FLOP on
destinations.  Within each list the first match wins, so a name containing
both NET and FF resolves to net in both roles). -/
theorem inferType_check_order (name : String) :
    (strContainsCpp name "NET" = true →
      inferFromType name = "net" ∧ inferToType name = "net") ∧
    (strContainsCpp name "NET" = false →
      (strContainsCpp name "FF" = true ∨ strContainsCpp name "FLOP" = true) →
      inferFromType name = "flop") ∧
    (strContainsCpp name "NET" = false → strContainsCpp name "FF" = false →
      strContainsCpp name "FLOP" = false → strContainsCpp name "PI" = true →
      inferFromType name = "primary_input") ∧
    (strContainsCpp name "NET" = false → strContainsCpp name "FF" = false →
      strContainsCpp name "FLOP" = false → strContainsCpp name "PI" = false →
      inferFromType name = "unknown") ∧
    (strContainsCpp name "NET" = false → strContainsCpp name "INV" = true →
      inferToType name = "inverter") ∧
    (strContainsCpp name "NET" = false → strContainsCpp name "INV" = false →
      strContainsCpp name "BUF" = true → inferToType name = "buffer") ∧
    (strContainsCpp name "NET" = false → strContainsCpp name "INV" = false →
      strContainsCpp name "BUF" = false → strContainsCpp name "NAND" = true →
      inferToType name = "nand") ∧
    (strContainsCpp name "NET" = false → strContainsCpp name "INV" = false →
      strContainsCpp name "BUF" = false → strContainsCpp name "NAND" = false →
      strContainsCpp name "NOR" = true → inferToType name = "nor") ∧
    (strContainsCpp name "NET" = false → strContainsCpp name "INV" = false →
      strContainsCpp name "BUF" = false → strContainsCpp name "NAND" = false →
      strContainsCpp name "NOR" = false →
      (strContainsCpp name "FF" = true ∨ strContainsCpp name "FLOP" = true) →
      inferToType name = "flop") ∧
    (strContainsCpp name "NET" = false → strContainsCpp name "INV" = false →
      strContainsCpp name "BUF" = false → strContainsCpp name "NAND" = false →
      strContainsCpp name "NOR" = false → strContainsCpp name "FF" = false →
      strContainsCpp name "FLOP" = false → strContainsCpp name "PO" = true →
      inferToType name = "primary_output") ∧
    (strContainsCpp name "NET" = false → strContainsCpp name "INV" = false →
      strContainsCpp name "BUF" = false → strContainsCpp name "NAND" = false →
      strContainsCpp name "NOR" = false → strContainsCpp name "FF" = false →
      strContainsCpp name "FLOP" = false → strContainsCpp name "PO" = false →
      inferToType name = "unknown") := by
  refine ⟨fun h1 => ?_, fun h1 h2 => ?_, fun h1 h2 h3 h4 => ?_, fun h1 h2 h3 h4 => ?_,
    fun h1 h2 => ?_, fun h1 h2 h3 => ?_, fun h1 h2 h3 h4 => ?_, fun h1 h2 h3 h4 h5 => ?_,
    fun h1 h2 h3 h4 h5 h6 => ?_, fun h1 h2 h3 h4 h5 h6 h7 h8 => ?_,
    fun h1 h2 h3 h4 h5 h6 h7 h8 => ?_⟩ <;>
  simp_all [inferFromType, inferToType]

/-- C6 witness: a name with both NET and FF resolves to net in both roles;
FLOP yields flop for a source; BUF beats nothing earlier for a destination. -/
theorem inferType_check_order_witness :
    (inferFromType "NETFF" = "net" ∧ inferToType "NETFF" = "net") ∧
    inferFromType "FLOP2" = "flop" ∧ inferToType "BUFX" = "buffer" :=
  ⟨(inferType_check_order "NETFF").1 (by decide),
   (inferType_check_order "FLOP2").2.1 (by decide) (Or.inr (by decide)),
   (inferType_check_order "BUFX").2.2.2.2.2.1 (by decide) (by decide) (by decide)⟩

set_option maxRecDepth 4000 in
/-- C6 counterexample: the claim applies one merged check list to every
node name.  It then assigns inverter to a source named `INV1` (no earlier
cue matches), but the code assigns sources only net, flop, primary_input
or unknown, so parsing the stage line `P1.1 NET9 INV1 0.5` in an empty
cache gives the source node type unknown; and for a destination named
`INVFF` the claim finds FF before INV (flop), while the code checks INV
before FF and yields inverter. -/
theorem inferType_merged_list_fails :
    claimInferCategory true "INV1" = "inverter" ∧
    ((parsePathStage [] "P1.1 NET9 INV1 0.5").1.map fun e => e.from_.type) = some "unknown" ∧
    claimInferCategory false "INVFF" = "flop" ∧
    inferToType "INVFF" = "inverter" := by
  with_unfolding_all decide

set_option maxRecDepth 8000 in
/-- C8 (Scenario A).  Parsing the three-line report consisting of the
header `Path P1 FF_Q PI 2.345` and the stages `P1.1 NET1 PI 0.123` and
`P1.2 INV1 NET1 0.456` yields exactly one path with id `P1`, startpoint
`PI`, endpoint `FF_Q` (the header places the endpoint before the
startpoint), totalDelay `2.345`, and two edges with edge 0 from `PI` to
`NET1` and edge 1 to `INV1` of category inverter (the stage line places
the destination before the source). -/
theorem parseReport_scenarioA :
    (parseReport ["Path P1 FF_Q PI 2.345", "P1.1 NET1 PI 0.123", "P1.2 INV1 NET1 0.456"]).map
        pathSummary = [("P1", "PI", "FF_Q", 2345/1000)] ∧
    ((parseReport ["Path P1 FF_Q PI 2.345", "P1.1 NET1 PI 0.123",
        "P1.2 INV1 NET1 0.456"]).getD 0 default).edges.map
          (fun e => (e.from_.name, e.to_.name, e.to_.type, e.delay)) =
      [("PI", "NET1", "net", 123/1000), ("NET1", "INV1", "inverter", 456/1000)] := by
  with_unfolding_all decide
/-- A cache entry survives `resolveFrom` (insertion happens only for
absent names). -/
theorem lookup_resolveFrom_preserved (cache : NodeCache) (name k : String)
    (v : TimingNode) (h : List.lookup k cache = some v) :
    List.lookup k (resolveFrom cache name).2 = some v := by
  unfold resolveFrom
  cases hn : List.lookup name cache with
  | some n => exact h
  | none =>
    simp only [List.lookup]
    have hk : (k == name) = false := by
      by_contra hx
      simp only [Bool.not_eq_false, beq_iff_eq] at hx
      subst hx; rw [h] at hn; exact Option.noConfusion hn
    simp [hk, h]

/-- A cache entry survives `resolveTo`. -/
theorem lookup_resolveTo_preserved (cache : NodeCache) (name k : String)
    (v : TimingNode) (h : List.lookup k cache = some v) :
    List.lookup k (resolveTo cache name).2 = some v := by
  unfold resolveTo
  cases hn : List.lookup name cache with
  | some n => exact h
  | none =>
    simp only [List.lookup]
    have hk : (k == name) = false := by
      by_contra hx
      simp only [Bool.not_eq_false, beq_iff_eq] at hx
      subst hx; rw [h] at hn; exact Option.noConfusion hn
    simp [hk, h]

/-- A cache entry survives `parsePathStage`. -/
theorem lookup_parsePathStage_preserved (cache : NodeCache) (line : String)
    (k : String) (v : TimingNode) (h : List.lookup k cache = some v) :
    List.lookup k (parsePathStage cache line).2 = some v := by
  unfold parsePathStage
  cases h1 : searchStage line.data with
  | none => simpa [h1] using h
  | some r =>
    obtain ⟨g1, toCs, fromCs, dCs⟩ := r
    simp only [h1]
    cases h2 : stodQ dCs with
    | none => simpa [h2] using h
    | some delay =>
      simp only [h2]
      have hf := lookup_resolveFrom_preserved cache (String.mk fromCs) k v h
      have ht := lookup_resolveTo_preserved (resolveFrom cache (String.mk fromCs)).2
        (String.mk toCs) k v hf
      by_cases h3 : (resolveFrom cache (String.mk fromCs)).1.type = "net" <;>
        simp [h3, ht]

/-- A cache entry survives a fold of stage parses. -/
theorem lookup_stageFold_preserved (id : String) (ls : List String) :
    ∀ (edges : List TimingEdge) (cache : NodeCache) (k : String) (v : TimingNode),
      List.lookup k cache = some v →
      List.lookup k (stageFold id edges cache ls).2 = some v := by
  induction ls with
  | nil => intro edges cache k v h; exact h
  | cons l ls ih =>
    intro edges cache k v h
    simp only [stageFold, List.foldl_cons]
    by_cases hc : strContainsCpp l (id ++ ".") = true
    · simp only [hc, if_pos]
      cases hs : parsePathStage cache l with
      | mk oe c2 =>
        have h2 : List.lookup k c2 = some v := by
          have hp := lookup_parsePathStage_preserved cache l k v h
          rw [hs] at hp; exact hp
        cases oe with
        | some e => exact ih (edges ++ [e]) c2 k v h2
        | none => exact ih edges c2 k v h2
    · simp only [Bool.not_eq_true] at hc
      simp only [hc, Bool.false_eq_true, if_false]
      exact ih edges cache k v h

/-- A cache entry survives the stage-scan loop of `parsePath`. -/
theorem lookup_parsePathLoop_preserved (id : String) (lines : List String) :
    ∀ (fuel lineIndex : Nat) (edges : List TimingEdge) (cache : NodeCache)
      (k : String) (v : TimingNode), List.lookup k cache = some v →
      List.lookup k (parsePathLoop id lines fuel lineIndex edges cache).2.2 = some v := by
  intro fuel
  induction fuel with
  | zero => intro lineIndex edges cache k v h; exact h
  | succ fuel ih =>
    intro lineIndex edges cache k v h
    simp only [parsePathLoop]
    by_cases hlt : lineIndex < lines.length
    · simp only [hlt, if_pos]
      by_cases hterm : isTermLine (lines.getD lineIndex "") = true
      · rw [if_pos hterm]; exact h
      · simp only [Bool.not_eq_true] at hterm
        simp only [hterm, Bool.false_eq_true, if_false]
        by_cases hc : strContainsCpp (lines.getD lineIndex "") (id ++ ".") = true
        · simp only [hc, if_pos]
          cases hs : parsePathStage cache (lines.getD lineIndex "") with
          | mk oe c2 =>
            have h2 : List.lookup k c2 = some v := by
              have hp := lookup_parsePathStage_preserved cache (lines.getD lineIndex "") k v h
              rw [hs] at hp; exact hp
            cases oe with
            | some e => exact ih (lineIndex + 1) (edges ++ [e]) c2 k v h2
            | none => exact ih (lineIndex + 1) edges c2 k v h2
        · simp only [Bool.not_eq_true] at hc
          simp only [hc, Bool.false_eq_true, if_false]
          exact ih (lineIndex + 1) edges cache k v h
    · rw [if_neg hlt]; exact h

/-- A cache entry survives `parsePath` whenever it succeeds. -/
theorem lookup_parsePath_preserved (lines : List String) (startLine : Nat)
    (cache : NodeCache) (k : String) (v : TimingNode)
    (h : List.lookup k cache = some v) (path : TimingPath) (next : Nat)
    (cache2 : NodeCache) (hp : parsePath lines startLine cache = some (path, next, cache2)) :
    List.lookup k cache2 = some v := by
  unfold parsePath at hp
  cases hh : parsePathHeader (lines.getD startLine "") with
  | none => rw [hh] at hp; exact Option.noConfusion hp
  | some t =>
    obtain ⟨id, startp, endp, delay⟩ := t
    rw [hh] at hp
    simp only [Option.some.injEq, Prod.mk.injEq] at hp
    have hc2 : cache2 = (parsePathLoop id lines lines.length (startLine + 1) [] cache).2.2 :=
      hp.2.2.symm
    rw [hc2]
    exact lookup_parsePathLoop_preserved id lines lines.length (startLine + 1) [] cache k v h

/-- A cache entry survives the whole report-scan loop. -/
theorem lookup_parseReportLoop_preserved (lines : List String) :
    ∀ (fuel lineIndex : Nat) (cache : NodeCache) (acc : List TimingPath)
      (k : String) (v : TimingNode), List.lookup k cache = some v →
      List.lookup k (parseReportLoop lines fuel lineIndex cache acc).2 = some v := by
  intro fuel
  induction fuel with
  | zero => intro lineIndex cache acc k v h; exact h
  | succ fuel ih =>
    intro lineIndex cache acc k v h
    simp only [parseReportLoop]
    by_cases hlt : lineIndex < lines.length
    · simp only [hlt, if_pos]
      by_cases hhdr : startsWithCpp "Path " (lines.getD lineIndex "") = true
      · simp only [hhdr, if_pos]
        cases hp : parsePath lines lineIndex cache with
        | none => exact ih (lineIndex + 1) cache acc k v h
        | some r =>
          obtain ⟨path, next, cache2⟩ := r
          exact ih next cache2 (acc ++ [path]) k v
            (lookup_parsePath_preserved lines lineIndex cache k v h path next cache2 hp)
      · simp only [Bool.not_eq_true] at hhdr
        simp only [hhdr, Bool.false_eq_true, if_false]
        exact ih (lineIndex + 1) cache acc k v h
    · rw [if_neg hlt]; exact h

/-- C9.  The node registry is idempotent for a whole parse session: the
first resolution of a name (as source or destination) stores the created
node in the cache; a cached entry is returned unchanged — same node, same
cache — by every later resolution of that name, in either role; and every
cache entry survives any later stage parse, any fold of stage parses, and
the rest of the report scan (the registry only grows, nothing is evicted). -/
theorem nodeRegistry_idempotent (cache : NodeCache) (name : String) :
    List.lookup name (resolveFrom cache name).2 = some (resolveFrom cache name).1 ∧
    List.lookup name (resolveTo cache name).2 = some (resolveTo cache name).1 ∧
    (∀ node, List.lookup name cache = some node →
      resolveFrom cache name = (node, cache) ∧ resolveTo cache name = (node, cache)) ∧
    (∀ line k v, List.lookup k cache = some v →
      List.lookup k (parsePathStage cache line).2 = some v) ∧
    (∀ id edges ls k v, List.lookup k cache = some v →
      List.lookup k (stageFold id edges cache ls).2 = some v) ∧
    (∀ lines fuel j acc k v, List.lookup k cache = some v →
      List.lookup k (parseReportLoop lines fuel j cache acc).2 = some v) := by
  refine ⟨?_, ?_, ?_, ?_, ?_, ?_⟩
  · unfold resolveFrom
    cases hn : List.lookup name cache with
    | some n => exact hn
    | none => simp [List.lookup]
  · unfold resolveTo
    cases hn : List.lookup name cache with
    | some n => exact hn
    | none => simp [List.lookup]
  · intro node hn
    refine ⟨?_, ?_⟩
    · unfold resolveFrom; rw [hn]
    · unfold resolveTo; rw [hn]
  · intro line k v h
    exact lookup_parsePathStage_preserved cache line k v h
  · intro id edges ls k v h
    exact lookup_stageFold_preserved id ls edges cache k v h
  · intro lines fuel j acc k v h
    exact lookup_parseReportLoop_preserved lines fuel j cache acc k v h

/-- C9 witness: with the node for `NET1` already cached, resolving `NET1`
again returns the identical cached node and leaves the cache unchanged,
and the entry survives a later stage parse of a different line. -/
theorem nodeRegistry_idempotent_witness :
    (resolveFrom [("NET1", { name := "NET1", type := "net" })] "NET1" =
      ({ name := "NET1", type := "net" }, [("NET1", { name := "NET1", type := "net" })]) ∧
     resolveTo [("NET1", { name := "NET1", type := "net" })] "NET1" =
      ({ name := "NET1", type := "net" }, [("NET1", { name := "NET1", type := "net" })])) ∧
    List.lookup "NET1"
        (parsePathStage [("NET1", { name := "NET1", type := "net" })] "P1.2 INV1 NET1 0.456").2 =
      some { name := "NET1", type := "net" } :=
  ⟨(nodeRegistry_idempotent [("NET1", { name := "NET1", type := "net" })] "NET1").2.2.1
      { name := "NET1", type := "net" } (by decide),
   (nodeRegistry_idempotent [("NET1", { name := "NET1", type := "net" })] "NET1").2.2.2.1
      "P1.2 INV1 NET1 0.456" "NET1" { name := "NET1", type := "net" } (by decide)⟩

/-- One step of `stageFold`. -/
theorem stageFold_cons (id : String) (edges : List TimingEdge) (cache : NodeCache)
    (l : String) (ls : List String) :
    stageFold id edges cache (l :: ls) =
      (if strContainsCpp l (id ++ ".") then
        match parsePathStage cache l with
        | (some e, c2) => stageFold id (edges ++ [e]) c2 ls
        | (none, c2) => stageFold id edges c2 ls
      else stageFold id edges cache ls) := by
  simp only [stageFold, List.foldl_cons]
  by_cases hc : strContainsCpp l (id ++ ".") = true
  · rw [if_pos hc, if_pos hc]
    cases hs : parsePathStage cache l with
    | mk oe c2 => cases oe <;> rfl
  · rw [if_neg hc, if_neg hc]

/-- The stage-scan loop, in closed form: with enough fuel (the caller
passes `lines.length`), the scan consumes exactly the longest prefix of
the remaining lines that contains no terminator line, folds the stage
parser over it, and returns the index just past that prefix. -/
theorem parsePathLoop_spec (id : String) (lines : List String) :
    ∀ (fuel j : Nat) (edges : List TimingEdge) (cache : NodeCache),
      lines.length - j ≤ fuel →
      parsePathLoop id lines fuel j edges cache =
        ((stageFold id edges cache ((lines.drop j).takeWhile fun l => !isTermLine l)).1,
         j + ((lines.drop j).takeWhile fun l => !isTermLine l).length,
         (stageFold id edges cache ((lines.drop j).takeWhile fun l => !isTermLine l)).2) := by
  intro fuel
  induction fuel with
  | zero =>
    intro j edges cache hf
    have hj : lines.length ≤ j := by omega
    rw [List.drop_eq_nil_of_le hj]
    simp [parsePathLoop, stageFold]
  | succ fuel ih =>
    intro j edges cache hf
    by_cases hlt : j < lines.length
    · have hline : lines.getD j "" = lines[j] := by
        simp [List.getD, List.getElem?_eq_getElem hlt]
      have hdrop : lines.drop j = lines[j] :: lines.drop (j + 1) :=
        List.drop_eq_getElem_cons hlt
      simp only [parsePathLoop, hlt, if_pos, hline]
      by_cases hterm : isTermLine lines[j] = true
      · have htw : (lines.drop j).takeWhile (fun l => !isTermLine l) = [] := by
          rw [hdrop]; simp [List.takeWhile_cons, hterm]
        rw [if_pos hterm, htw]
        simp [stageFold]
      · have hterm2 : isTermLine lines[j] = false := by simpa using hterm
        have htw : (lines.drop j).takeWhile (fun l => !isTermLine l) =
            lines[j] :: (lines.drop (j + 1)).takeWhile (fun l => !isTermLine l) := by
          rw [hdrop]
          simp only [List.takeWhile_cons, hterm2, Bool.not_false, eq_self_iff_true, if_true]
        rw [if_neg hterm, htw, stageFold_cons]
        by_cases hc : strContainsCpp lines[j] (id ++ ".") = true
        · rw [if_pos hc, if_pos hc]
          split
          · rename_i e cache2 heq
            rw [ih (j + 1) (edges ++ [e]) cache2 (by omega)]
            simp only [Prod.mk.injEq, List.length_cons]
            exact ⟨trivial, by omega, trivial⟩
          · rename_i cache2 heq
            rw [ih (j + 1) edges cache2 (by omega)]
            simp only [Prod.mk.injEq, List.length_cons]
            exact ⟨trivial, by omega, trivial⟩
        · rw [if_neg hc, if_neg hc, ih (j + 1) edges cache (by omega)]
          simp only [Prod.mk.injEq, List.length_cons]
          exact ⟨trivial, by omega, trivial⟩
    · have hj : lines.length ≤ j := by omega
      rw [List.drop_eq_nil_of_le hj]
      simp [parsePathLoop, hlt, stageFold]

/-- C7.  When the header at `startLine` parses, the stage scan of the path
builder examines the lines after the header and stops exactly at the first
subsequent line that is empty, begins with the literal `"Path "`, or
contains the substring `"End of"` (the `takeWhile` of non-terminator lines
below, the terminator itself staying unconsumed for the report scanner to
revisit); every other line of that block is treated as a stage line exactly
when it contains the path id followed by a literal dot (the gate inside
`stageFold`); and the returned index is `startLine + 1 + block.length`,
the index immediately after the last line consumed by the block scan. -/
theorem parsePath_block_scan (lines : List String) (startLine : Nat) (cache : NodeCache)
    (id startp endp : String) (delay : ℚ)
    (hh : parsePathHeader (lines.getD startLine "") = some (id, startp, endp, delay)) :
    parsePath lines startLine cache =
      (let block := (lines.drop (startLine + 1)).takeWhile fun l => !isTermLine l
       some ({ id := id, startpoint := startp, endpoint := endp, totalDelay := delay,
               edges := (stageFold id [] cache block).1 },
             startLine + 1 + block.length, (stageFold id [] cache block).2)) := by
  unfold parsePath
  rw [hh]
  simp only [parsePathLoop_spec id lines lines.length (startLine + 1) [] cache (Nat.sub_le _ _)]

/-- C7 witness: a block of two stage lines (the second of which does not
carry the id-dot marker and is skipped) terminated by a line containing
`End of`; the scan returns index 4, one past the last block line, leaving
the terminator unconsumed. -/
theorem parsePath_block_scan_witness :
    (parsePath ["Path P9 FF_E PI_S 7", "P9.1 NET1 PI_S 3", "note without marker",
        "P9.2 INV1 NET1 4", "x End of path", "P9.3 NET2 INV1 9"] 0 []).map
      (fun r => (r.1.id, r.1.edges.length, r.2.1)) = some ("P9", 2, 4) := by
  rw [parsePath_block_scan _ 0 [] "P9" "PI_S" "FF_E" 7 (by with_unfolding_all decide)]
  with_unfolding_all decide

/-- Dropping as many elements as `takeWhile` keeps is `dropWhile`. -/
theorem drop_length_takeWhile {α : Type} (p : α → Bool) (l : List α) :
    l.drop (l.takeWhile p).length = l.dropWhile p := by
  induction l with
  | nil => rfl
  | cons x xs ih =>
    by_cases hx : p x = true
    · simp [List.takeWhile_cons, List.dropWhile_cons, hx, ih]
    · simp [List.takeWhile_cons, List.dropWhile_cons, hx]

/-- Lines that are not header lines contribute nothing to the header data. -/
theorem wellFormedHeaderData_eq_nil (ls : List String)
    (h : ∀ l ∈ ls, startsWithCpp "Path " l = false) : wellFormedHeaderData ls = [] := by
  induction ls with
  | nil => rfl
  | cons l ls ih =>
    have hl := h l (by simp)
    simp only [wellFormedHeaderData, List.filterMap_cons, hl, Bool.false_eq_true, if_false]
    exact ih fun x hx => h x (by simp [hx])

/-- The report-scan loop appends, in order, one path per header line that
parses, and the header fields of those paths are the parsed header data. -/
theorem parseReportLoop_summaries (lines : List String) :
    ∀ (fuel j : Nat) (cache : NodeCache) (acc : List TimingPath),
      lines.length - j < fuel →
      ((parseReportLoop lines fuel j cache acc).1).map pathSummary =
        acc.map pathSummary ++ wellFormedHeaderData (lines.drop j) := by
  intro fuel
  induction fuel with
  | zero => intro j cache acc hf; exact absurd hf (by omega)
  | succ fuel ih =>
    intro j cache acc hf
    by_cases hlt : j < lines.length
    · have hline : lines.getD j "" = lines[j] := by
        simp [List.getD, List.getElem?_eq_getElem hlt]
      have hdrop : lines.drop j = lines[j] :: lines.drop (j + 1) :=
        List.drop_eq_getElem_cons hlt
      simp only [parseReportLoop, hlt, if_pos, hline]
      by_cases hhdr : startsWithCpp "Path " lines[j] = true
      · rw [if_pos hhdr]
        cases hh : parsePathHeader lines[j] with
        | none =>
          have hp : parsePath lines j cache = none := by
            unfold parsePath
            simp only [hline, hh]
          simp only [hp]
          rw [ih (j + 1) cache acc (by omega), hdrop]
          simp only [wellFormedHeaderData, List.filterMap_cons, hhdr, if_pos, hh]
        | some t =>
          obtain ⟨id, startp, endp, delay⟩ := t
          have hhD : parsePathHeader (lines.getD j "") = some (id, startp, endp, delay) := by
            rw [hline]; exact hh
          simp only [parsePath_block_scan lines j cache id startp endp delay hhD]
          rw [ih (j + 1 + ((lines.drop (j + 1)).takeWhile fun l => !isTermLine l).length)
            _ _ (by omega)]
          have hdd : lines.drop
              (j + 1 + ((lines.drop (j + 1)).takeWhile fun l => !isTermLine l).length) =
              (lines.drop (j + 1)).dropWhile fun l => !isTermLine l := by
            have h1 : lines.drop
                (j + 1 + ((lines.drop (j + 1)).takeWhile fun l => !isTermLine l).length) =
                (lines.drop (j + 1)).drop
                  ((lines.drop (j + 1)).takeWhile fun l => !isTermLine l).length := by
              rw [List.drop_drop]
            rw [h1]
            exact drop_length_takeWhile _ _
          have hwfb : wellFormedHeaderData
              ((lines.drop (j + 1)).takeWhile fun l => !isTermLine l) = [] := by
            refine wellFormedHeaderData_eq_nil _ fun l hl => ?_
            have ht := List.mem_takeWhile_imp hl
            simp only [Bool.not_eq_true'] at ht
            revert ht
            unfold isTermLine
            intro ht
            simp only [Bool.or_eq_false_iff] at ht
            exact ht.1.2
          have hwf2 : wellFormedHeaderData (lines.drop (j + 1)) =
              wellFormedHeaderData (lines.drop
                (j + 1 + ((lines.drop (j + 1)).takeWhile fun l => !isTermLine l).length)) := by
            rw [hdd]
            conv_lhs =>
              rw [← List.takeWhile_append_dropWhile (p := fun l => !isTermLine l)
                (l := lines.drop (j + 1))]
            rw [show ∀ a b : List String, wellFormedHeaderData (a ++ b) =
                wellFormedHeaderData a ++ wellFormedHeaderData b from
              fun a b => List.filterMap_append a b _, hwfb, List.nil_append]
          have hcons : wellFormedHeaderData (lines[j] :: lines.drop (j + 1)) =
              (id, startp, endp, delay) :: wellFormedHeaderData (lines.drop (j + 1)) := by
            simp only [wellFormedHeaderData, List.filterMap_cons, hhdr, if_pos, hh]
          rw [hdrop, hcons, ← hwf2]
          simp [pathSummary]
      · have hhdr2 : startsWithCpp "Path " lines[j] = false := by simpa using hhdr
        rw [if_neg hhdr]
        rw [ih (j + 1) cache acc (by omega), hdrop]
        simp only [wellFormedHeaderData, List.filterMap_cons, hhdr2, Bool.false_eq_true, if_false]
    · have hj : lines.length ≤ j := by omega
      simp only [parseReportLoop, hlt, if_false]
      rw [List.drop_eq_nil_of_le hj]
      simp [wellFormedHeaderData]

/-- C5.  For every report, the paths `parseReport` returns correspond
one-to-one and in order to the lines that start with `"Path "` and carry a
well-formed header, each path taking its id, startpoint, endpoint and
total delay from its header line.  In particular a report whose N header
lines are all well-formed yields exactly N paths in header order
(stage-line content never affects the count); a malformed header
contributes nothing — the scanner advances one line and continues, so
parsing never aborts (`parseReport` is total); and a report with no
recognizable header yields the empty sequence. -/
theorem parseReport_count_and_order (lines : List String) :
    (parseReport lines).map pathSummary = wellFormedHeaderData lines ∧
    (parseReport lines).length = (wellFormedHeaderData lines).length := by
  have h : (parseReport lines).map pathSummary = wellFormedHeaderData lines := by
    unfold parseReport
    rw [parseReportLoop_summaries lines (lines.length + 1) 0 [] [] (by omega)]
    simp
  exact ⟨h, by rw [← h]; simp⟩

/-- `lswap` preserves length. -/
theorem length_lswap {α : Type} [Inhabited α] (l : List α) (i j : Nat) :
    (lswap l i j).length = l.length := by
  simp [lswap]

/-- `partitionLoop` preserves length. -/
theorem length_partitionLoop {α : Type} [Inhabited α] (gt : α → α → Bool) (piv : α) :
    ∀ (fuel : Nat) (l : List α) (first last : Nat),
      (partitionLoop gt piv fuel l first last).1.length = l.length := by
  intro fuel
  induction fuel with
  | zero => intro l first last; rfl
  | succ fuel ih =>
    intro l first last
    simp only [partitionLoop]
    split
    · rw [ih, length_lswap]
    · rfl

/-- `moveMedianToFirst` preserves length. -/
theorem length_moveMedianToFirst {α : Type} [Inhabited α] (gt : α → α → Bool)
    (l : List α) (result a b c : Nat) :
    (moveMedianToFirst gt l result a b c).length = l.length := by
  unfold moveMedianToFirst
  split
  · split
    · exact length_lswap l result b
    · split
      · exact length_lswap l result c
      · exact length_lswap l result a
  · split
    · exact length_lswap l result a
    · split
      · exact length_lswap l result c
      · exact length_lswap l result b

/-- `unguardedPartitionPivot` preserves length. -/
theorem length_unguardedPartitionPivot {α : Type} [Inhabited α] (gt : α → α → Bool)
    (l : List α) (first last : Nat) :
    (unguardedPartitionPivot gt l first last).1.length = l.length := by
  unfold unguardedPartitionPivot
  rw [length_partitionLoop, length_moveMedianToFirst]

/-- `pushHeap` preserves length. -/
theorem length_pushHeap {α : Type} [Inhabited α] (gt : α → α → Bool) (first : Nat) :
    ∀ (fuel holeIndex topIndex : Nat) (value : α) (l : List α),
      (pushHeap gt first fuel holeIndex topIndex value l).length = l.length := by
  intro fuel
  induction fuel with
  | zero => intro holeIndex topIndex value l; simp [pushHeap]
  | succ fuel ih =>
    intro holeIndex topIndex value l
    simp only [pushHeap]
    split
    · rw [ih]; simp
    · simp

/-- `adjustLoop` preserves length. -/
theorem length_adjustLoop {α : Type} [Inhabited α] (gt : α → α → Bool) (first len : Nat) :
    ∀ (fuel holeIndex secondChild : Nat) (l : List α),
      (adjustLoop gt first len fuel holeIndex secondChild l).1.length = l.length := by
  intro fuel
  induction fuel with
  | zero => intro holeIndex secondChild l; rfl
  | succ fuel ih =>
    intro holeIndex secondChild l
    simp only [adjustLoop]
    split
    · rw [ih]; simp
    · rfl

/-- `adjustHeap` preserves length. -/
theorem length_adjustHeap {α : Type} [Inhabited α] (gt : α → α → Bool)
    (first len holeIndex : Nat) (l : List α) (value : α) :
    (adjustHeap gt first len holeIndex l value).length = l.length := by
  simp only [adjustHeap]
  split
  · rw [length_pushHeap]; simp [length_adjustLoop]
  · rw [length_pushHeap]; simp [length_adjustLoop]

/-- `popHeapStep` preserves length. -/
theorem length_popHeapStep {α : Type} [Inhabited α] (gt : α → α → Bool)
    (first last : Nat) (l : List α) :
    (popHeapStep gt first last l).length = l.length := by
  unfold popHeapStep
  rw [length_adjustHeap]; simp

/-- `sortHeapLoop` preserves length. -/
theorem length_sortHeapLoop {α : Type} [Inhabited α] (gt : α → α → Bool) (first : Nat) :
    ∀ (fuel last : Nat) (l : List α),
      (sortHeapLoop gt first fuel last l).length = l.length := by
  intro fuel
  induction fuel with
  | zero => intro last l; rfl
  | succ fuel ih =>
    intro last l
    simp only [sortHeapLoop]
    split
    · rw [ih, length_popHeapStep]
    · rfl

/-- `makeHeapLoop` preserves length. -/
theorem length_makeHeapLoop {α : Type} [Inhabited α] (gt : α → α → Bool) (first len : Nat) :
    ∀ (fuel parent : Nat) (l : List α),
      (makeHeapLoop gt first len fuel parent l).length = l.length := by
  intro fuel
  induction fuel with
  | zero => intro parent l; rfl
  | succ fuel ih =>
    intro parent l
    simp only [makeHeapLoop]
    split
    · rw [length_adjustHeap]
    · rw [ih, length_adjustHeap]

/-- `makeHeap` preserves length. -/
theorem length_makeHeap {α : Type} [Inhabited α] (gt : α → α → Bool)
    (first last : Nat) (l : List α) : (makeHeap gt first last l).length = l.length := by
  unfold makeHeap
  split
  · rfl
  · rw [length_makeHeapLoop]

/-- `heapSortRange` preserves length. -/
theorem length_heapSortRange {α : Type} [Inhabited α] (gt : α → α → Bool)
    (first last : Nat) (l : List α) :
    (heapSortRange gt first last l).length = l.length := by
  unfold heapSortRange
  rw [length_sortHeapLoop, length_makeHeap]

/-- `introsortLoop` preserves length. -/
theorem length_introsortLoop {α : Type} [Inhabited α] (gt : α → α → Bool) :
    ∀ (fuel : Nat) (l : List α) (first last depth : Nat),
      (introsortLoop gt fuel l first last depth).length = l.length := by
  intro fuel
  induction fuel with
  | zero => intro l first last depth; rfl
  | succ fuel ih =>
    intro l first last depth
    simp only [introsortLoop]
    split
    · split
      · exact length_heapSortRange gt first last l
      · rw [ih, ih, length_unguardedPartitionPivot]
    · rfl

/-- `linearInsert` adds one element. -/
theorem length_linearInsert {α : Type} (gt : α → α → Bool) (x : α) :
    ∀ l : List α, (linearInsert gt x l).length = l.length + 1 := by
  intro l
  induction l with
  | nil => rfl
  | cons y ys ih =>
    simp only [linearInsert]
    split
    · simp
    · simp [ih]

/-- `insertionSortCpp` preserves length. -/
theorem length_insertionSortCpp {α : Type} (gt : α → α → Bool) (l : List α) :
    (insertionSortCpp gt l).length = l.length := by
  suffices h : ∀ (l acc : List α),
      (l.foldl (fun acc x => linearInsert gt x acc) acc).length = acc.length + l.length by
    simpa using h l []
  intro l
  induction l with
  | nil => intro acc; simp
  | cons x xs ih =>
    intro acc
    simp only [List.foldl_cons]
    rw [ih, length_linearInsert]
    simp only [List.length_cons]
    omega

/-- `sortCpp` preserves length. -/
theorem length_sortCpp {α : Type} [Inhabited α] (gt : α → α → Bool) (l : List α) :
    (sortCpp gt l).length = l.length := by
  unfold sortCpp
  split
  · rfl
  · rw [length_insertionSortCpp, length_introsortLoop]

/-- Membership in a `linearInsert` result. -/
theorem mem_linearInsert {α : Type} (gt : α → α → Bool) (x : α) :
    ∀ (l : List α) (y : α), y ∈ linearInsert gt x l ↔ y = x ∨ y ∈ l := by
  intro l
  induction l with
  | nil => intro y; simp [linearInsert]
  | cons z zs ih =>
    intro y
    simp only [linearInsert]
    split
    · simp [List.mem_cons]
    · simp only [List.mem_cons, ih]
      tauto

/-- `linearInsert` preserves sortedness for an asymmetric comparator that
is compatible with its negation. -/
theorem pairwise_linearInsert {α : Type} (gt : α → α → Bool)
    (hasym : ∀ a b, gt a b = true → gt b a = false)
    (htr : ∀ a b c, gt a b = true → gt c b = false → gt c a = false) (x : α) :
    ∀ l : List α, List.Pairwise (fun a b => gt b a = false) l →
      List.Pairwise (fun a b => gt b a = false) (linearInsert gt x l) := by
  intro l
  induction l with
  | nil => intro _; simp [linearInsert]
  | cons y ys ih =>
    intro h
    rcases List.pairwise_cons.mp h with ⟨hy, hys⟩
    by_cases hgt : gt x y = true
    · simp only [linearInsert, hgt, if_true]
      refine List.pairwise_cons.mpr ⟨?_, h⟩
      intro z hz
      rcases List.mem_cons.mp hz with rfl | hz2
      · exact hasym x z hgt
      · exact htr x y z hgt (hy z hz2)
    · have hgt2 : gt x y = false := by simpa using hgt
      simp only [linearInsert, hgt2, Bool.false_eq_true, if_false]
      refine List.pairwise_cons.mpr ⟨?_, ih hys⟩
      intro z hz
      rcases (mem_linearInsert gt x ys z).mp hz with rfl | hz2
      · exact hgt2
      · exact hy z hz2

/-- The final insertion sort produces a sequence ordered by the comparator:
no later element beats an earlier one. -/
theorem pairwise_insertionSortCpp {α : Type} (gt : α → α → Bool)
    (hasym : ∀ a b, gt a b = true → gt b a = false)
    (htr : ∀ a b c, gt a b = true → gt c b = false → gt c a = false) (l : List α) :
    List.Pairwise (fun a b => gt b a = false) (insertionSortCpp gt l) := by
  suffices h : ∀ (l acc : List α), List.Pairwise (fun a b => gt b a = false) acc →
      List.Pairwise (fun a b => gt b a = false)
        (l.foldl (fun acc x => linearInsert gt x acc) acc) by
    exact h l [] (by simp)
  intro l
  induction l with
  | nil => intro acc hacc; exact hacc
  | cons x xs ih =>
    intro acc hacc
    simp only [List.foldl_cons]
    exact ih (linearInsert gt x acc) (pairwise_linearInsert gt hasym htr x acc hacc)

/-- The path comparator of `findCriticalPaths` is asymmetric. -/
theorem pathGtCpp_asym (a b : TimingPath) (h : pathGtCpp a b = true) :
    pathGtCpp b a = false := by
  simp only [pathGtCpp, decide_eq_true_eq] at h
  simp only [pathGtCpp, decide_eq_false_iff_not]
  exact lt_asymm h

/-- The path comparator is compatible with its own negation. -/
theorem pathGtCpp_trans_neg (a b c : TimingPath) (h1 : pathGtCpp a b = true)
    (h2 : pathGtCpp c b = false) : pathGtCpp c a = false := by
  simp only [pathGtCpp, decide_eq_true_eq] at h1
  simp only [pathGtCpp, decide_eq_false_iff_not] at h2 ⊢
  exact not_lt.mpr (le_of_lt (lt_of_le_of_lt (not_lt.mp h2) h1))

/-- `analyzePath` annotates the path it was given. -/
theorem analyzePath_path (p : TimingPath) : (analyzePath p).path = p := by
  simp only [analyzePath, mkTimingPathAnalysis]
  split
  · rfl
  · split
    · rfl
    · split <;> rfl

/-- `sortCpp` output is ordered by the comparator. -/
theorem pairwise_sortCpp {α : Type} [Inhabited α] (gt : α → α → Bool)
    (hasym : ∀ a b, gt a b = true → gt b a = false)
    (htr : ∀ a b c, gt a b = true → gt c b = false → gt c a = false) (l : List α) :
    List.Pairwise (fun a b => gt b a = false) (sortCpp gt l) := by
  unfold sortCpp
  split
  · simp_all [List.isEmpty_iff]
  · exact pairwise_insertionSortCpp gt hasym htr _

/-- C1 (amended: the ranking is ordered by descending `totalDelay` and has
length `min(K, |paths|)` for `K > 0` and `0` for `K <= 0`, but paths with
equal `totalDelay` need not keep their original relative input order:
`std::sort` is not a stable sort, and the counterexample exhibits 17
equal-delay paths that come back permuted). -/
theorem findCriticalPaths_sorted_length (paths : List TimingPath) (topK : ℤ) :
    List.Pairwise (fun a b : TimingPathAnalysis =>
      b.path.totalDelay ≤ a.path.totalDelay) (findCriticalPaths paths topK) ∧
    (findCriticalPaths paths topK).length = min topK.toNat paths.length ∧
    (topK ≤ 0 → findCriticalPaths paths topK = []) := by
  have hlen : (sortCpp pathGtCpp paths).length = paths.length := length_sortCpp _ _
  refine ⟨?_, ?_, ?_⟩
  · unfold findCriticalPaths
    refine List.Pairwise.map analyzePath (fun a b hr => ?_)
      (((pairwise_sortCpp pathGtCpp pathGtCpp_asym pathGtCpp_trans_neg paths).sublist
        (List.take_sublist _ _)))
    rw [analyzePath_path, analyzePath_path]
    simp only [pathGtCpp, decide_eq_false_iff_not] at hr
    exact not_lt.mp hr
  · unfold findCriticalPaths
    simp only [List.length_map, List.length_take, hlen]
    omega
  · intro hk
    unfold findCriticalPaths
    have h0 : (min topK ((sortCpp pathGtCpp paths).length : ℤ)).toNat = 0 := by omega
    simp [h0]

set_option maxRecDepth 40000 in
/-- C1 counterexample: seventeen paths with identical `totalDelay`.  A
sequence that is sorted by descending delay, keeps equal-delay paths in
input order and has length `min(17, 17)` would list the ids in input
order — that is what the spec-modelled stable ranking
`findCriticalPathsSpec` returns.  The code (libstdc++ `std::sort`, whose
partitioning pass swaps equal elements once the 16-element insertion-sort
threshold is exceeded) returns them in a different order, so the
stable-sort part of the claim is false. -/
theorem findCriticalPaths_not_stable :
    (∀ p ∈ pathsTie17, p.totalDelay = 1) ∧ pathsTie17.length = 17 ∧
    (findCriticalPaths pathsTie17 17).length = 17 ∧
    (findCriticalPathsSpec pathsTie17 17).map (fun a => a.path.id) =
      pathsTie17.map (fun p => p.id) ∧
    (findCriticalPaths pathsTie17 17).map (fun a => a.path.id) ≠
      pathsTie17.map (fun p => p.id) := by
  with_unfolding_all decide

/-- C1 witness: a non-positive K yields the empty ranking. -/
theorem findCriticalPaths_sorted_length_witness :
    findCriticalPaths [{ id := "a", totalDelay := 4 }, { id := "b", totalDelay := 6 }] (-1) =
      [] :=
  (findCriticalPaths_sorted_length
    [{ id := "a", totalDelay := 4 }, { id := "b", totalDelay := 6 }] (-1)).2.2 (by decide)
